import Mathlib

/-
Verification of the singleton key-value cache manager
(src/CreationalPatterns/SingletonPattern/SingletonPattern.cpp).

The CacheManager class holds an unordered_map<string, string> named
cache.  We embed the map as an association list of key-value pairs and
each method as a Lean function:

  * put(key, value)  throws invalid_argument on an empty key, otherwise
    performs cache[key] = value (insert or overwrite);
  * get(key)         throws invalid_argument on an empty key, otherwise
    returns the mapped value, or the empty string when the key is absent;
  * clear()          removes all entries;
  * size()           returns the number of entries;
  * print()          lists the current key-value pairs (modelled as
    snapshot, returning the pairs rather than writing to stdout).

The singleton machinery (static CacheManager* instance, std::once_flag
initInstanceFlag, getInstance via std::call_once) is embedded as a
process state carrying the once-flag and the optional constructed
store, with getInstance running initSingleton exactly when the flag is
still unset, and the other operations acting through the constructed
store.  Thrown exceptions leave the store untouched, which the step
function of the process model makes explicit.
-/

namespace CacheManager

/-- The contents of the field cache : unordered_map<string, string>,
embedded as an association list of key-value pairs. -/
abbrev Cache := List (String × String)

/-- The only exception the class throws: std::invalid_argument with a
message. -/
inductive CacheError where
  | invalidArgument (msg : String)
deriving DecidableEq, Repr

/-- Lookup in the map: cache.find(key), returning the mapped value when
present. -/
def cacheFind : Cache → String → Option String
  | [], _ => none
  | (k₀, v₀) :: rest, k => if k₀ = k then some v₀ else cacheFind rest k

/-- Insert-or-overwrite: cache[key] = value.  When the key is present its
value is replaced in place; otherwise a new entry is added. -/
def cacheInsert : Cache → String → String → Cache
  | [], k, v => [(k, v)]
  | (k₀, v₀) :: rest, k, v =>
      if k₀ = k then (k, v) :: rest else (k₀, v₀) :: cacheInsert rest k v

/-- CacheManager::put.  Throws invalid_argument("Cache key cannot be
empty") when the key is empty, otherwise stores the pair. -/
def put (c : Cache) (key value : String) : Except CacheError Cache :=
  if key = "" then .error (.invalidArgument "Cache key cannot be empty")
  else .ok (cacheInsert c key value)

/-- CacheManager::get.  Throws invalid_argument("Cache key cannot be
empty") when the key is empty; otherwise returns the mapped value, or
the empty string when the key is not found. -/
def get (c : Cache) (key : String) : Except CacheError String :=
  if key = "" then .error (.invalidArgument "Cache key cannot be empty")
  else
    match cacheFind c key with
    | some v => .ok v
    | none => .ok ""

/-- CacheManager::clear: cache.clear(). -/
def clear (_ : Cache) : Cache := []

/-- CacheManager::size: cache.size(). -/
def size (c : Cache) : Nat := c.length

/-- CacheManager::print, modelled by the listing of key-value pairs it
writes out. -/
def snapshot (c : Cache) : List (String × String) := c

/-- The process-wide static state: the once-flag initInstanceFlag and
the pointer instance, which is null until initSingleton runs. -/
structure ManagerState where
  onceFlagDone : Bool
  inst : Option Cache
deriving DecidableEq, Repr

/-- The static initializers: instance = nullptr and a fresh once_flag. -/
def initialState : ManagerState := { onceFlagDone := false, inst := none }

/-- CacheManager::initSingleton: instance = new CacheManager(), whose
cache starts empty. -/
def initSingleton (s : ManagerState) : ManagerState :=
  { s with inst := some [] }

/-- CacheManager::getInstance: std::call_once(initInstanceFlag,
initSingleton) runs the initializer exactly when the flag is unset and
then marks it set. -/
def getInstance (s : ManagerState) : ManagerState :=
  if s.onceFlagDone then s
  else { initSingleton s with onceFlagDone := true }

/-- The operations a caller can invoke on the process state. -/
inductive Op where
  | getInstanceOp
  | putOp (key value : String)
  | getOp (key : String)
  | clearOp
  | sizeOp
deriving DecidableEq, Repr

/-- One call against the process state.  put and clear mutate the
constructed store; a thrown invalid_argument leaves it unchanged; get
and size read without mutating. -/
def step (s : ManagerState) : Op → ManagerState
  | .getInstanceOp => getInstance s
  | .putOp k v =>
      match s.inst with
      | none => s
      | some c =>
          match put c k v with
          | .ok c₁ => { s with inst := some c₁ }
          | .error _ => s
  | .getOp _ => s
  | .clearOp =>
      match s.inst with
      | none => s
      | some c => { s with inst := some (clear c) }
  | .sizeOp => s

/-- Run a sequence of calls against the process state. -/
def run (s : ManagerState) (ops : List Op) : ManagerState := ops.foldl step s

/-- Apply put, keeping the store unchanged when it throws. -/
def putOrKeep (c : Cache) (k v : String) : Cache :=
  match put c k v with
  | .ok c₁ => c₁
  | .error _ => c

/-- Run a sequence of put calls against a store. -/
def runPuts (c : Cache) : List (String × String) → Cache
  | [] => c
  | (k, v) :: rest => runPuts (putOrKeep c k v) rest

theorem cacheFind_insert_self (c : Cache) (k v : String) :
    cacheFind (cacheInsert c k v) k = some v := by
  induction c with
  | nil => simp [cacheInsert, cacheFind]
  | cons hd tl ih =>
      obtain ⟨k₀, v₀⟩ := hd
      by_cases h : k₀ = k
      · simp [cacheInsert, cacheFind, h]
      · simp [cacheInsert, cacheFind, h, ih]

theorem cacheFind_insert_ne (c : Cache) (k v k₁ : String) (h : k₁ ≠ k) :
    cacheFind (cacheInsert c k v) k₁ = cacheFind c k₁ := by
  have h₁ : k ≠ k₁ := fun hh => h hh.symm
  induction c with
  | nil => simp [cacheInsert, cacheFind, h₁]
  | cons hd tl ih =>
      obtain ⟨k₀, v₀⟩ := hd
      by_cases hk : k₀ = k
      · subst hk
        simp [cacheInsert, cacheFind, h₁]
      · simp [cacheInsert, cacheFind, hk, ih]

theorem length_cacheInsert (c : Cache) (k v : String) :
    (cacheInsert c k v).length =
      if (cacheFind c k).isSome then c.length else c.length + 1 := by
  induction c with
  | nil => simp [cacheInsert, cacheFind]
  | cons hd tl ih =>
      obtain ⟨k₀, v₀⟩ := hd
      by_cases h : k₀ = k
      · simp [cacheInsert, cacheFind, h]
      · simp only [cacheInsert, cacheFind, h, if_false, List.length_cons, ih]
        by_cases hs : (cacheFind tl k).isSome
        · simp [hs]
        · simp [hs]

theorem cacheFind_putOrKeep_isSome (c : Cache) (k v k₁ : String)
    (h : (cacheFind (putOrKeep c k v) k₁).isSome = true) :
    (cacheFind c k₁).isSome = true ∨ k₁ ≠ "" := by
  by_cases hk : k = ""
  · have hkeep : putOrKeep c k v = c := by simp [putOrKeep, put, hk]
    rw [hkeep] at h
    exact Or.inl h
  · have hins : putOrKeep c k v = cacheInsert c k v := by
      simp [putOrKeep, put, hk]
    rw [hins] at h
    by_cases hkk : k₁ = k
    · subst hkk
      exact Or.inr hk
    · rw [cacheFind_insert_ne c k v k₁ hkk] at h
      exact Or.inl h

theorem runPuts_keys_nonempty (l : List (String × String)) (c : Cache)
    (hc : ∀ k₁, (cacheFind c k₁).isSome = true → k₁ ≠ "")
    (k : String) (h : (cacheFind (runPuts c l) k).isSome = true) : k ≠ "" := by
  induction l generalizing c with
  | nil => exact hc k h
  | cons p rest ih =>
      obtain ⟨k₀, v₀⟩ := p
      simp only [runPuts] at h
      refine ih (putOrKeep c k₀ v₀) ?_ h
      intro k₁ h₁
      rcases cacheFind_putOrKeep_isSome c k₀ v₀ k₁ h₁ with h₂ | h₂
      · exact hc k₁ h₂
      · exact h₂

theorem step_preserves_gate (s : ManagerState) (op : Op)
    (h : s.onceFlagDone = true) : (step s op).onceFlagDone = true := by
  cases op with
  | getInstanceOp => simp [step, getInstance, h]
  | putOp k v =>
      cases hi : s.inst with
      | none => simp [step, hi, h]
      | some c =>
          cases hp : put c k v with
          | ok c₁ => simp [step, hi, hp, h]
          | error e => simp [step, hi, hp, h]
  | getOp k => simpa [step] using h
  | clearOp =>
      cases hi : s.inst with
      | none => simp [step, hi, h]
      | some c => simp [step, hi, h]
  | sizeOp => simpa [step] using h

/-- C1 counterexample: the claim as stated fails.  After put("a", ""),
the value "" is actually stored under "a", yet get on the absent key "b"
yields a result identical to get on the stored key "a" — the absent
sentinel is not distinguishable from every value actually stored. -/
theorem get_absent_sentinel_cex :
    put [] "a" "" = .ok [("a", "")] ∧
    cacheFind [("a", "")] "b" = none ∧
    cacheFind [("a", "")] "a" = some "" ∧
    get [("a", "")] "b" = get [("a", "")] "a" := by
  refine ⟨?_, ?_, ?_, ?_⟩
  · simp [put, cacheInsert]
  · simp [cacheFind]
  · simp [cacheFind]
  · simp [get, cacheFind]

/-- C1 amended: for every non-empty key absent from the store, get
returns the empty string as the absent sentinel; this is distinguishable
from every stored non-empty value, but coincides with the result for a
key stored with the empty-string value. -/
theorem get_absent_returns_empty (c : Cache) (k k₁ v₁ : String)
    (hk : k ≠ "") (habs : cacheFind c k = none)
    (hstored : cacheFind c k₁ = some v₁) (hne : v₁ ≠ "") :
    get c k = .ok "" ∧ get c k ≠ .ok v₁ := by
  have hget : get c k = .ok "" := by simp [get, hk, habs]
  refine ⟨hget, ?_⟩
  rw [hget]
  intro hcontra
  exact hne (Except.ok.inj hcontra).symm

/-- C1 amended, witness at a concrete store. -/
theorem get_absent_returns_empty_witness :
    get [("a", "x")] "b" = .ok "" ∧ get [("a", "x")] "b" ≠ .ok "x" :=
  get_absent_returns_empty [("a", "x")] "b" "a" "x" (by decide) (by decide)
    (by decide) (by decide)

/-- C3: put with the empty key and get with the empty key both throw
invalid_argument, and in both cases the process state — in particular
the store contents — is exactly what it was before the call. -/
theorem emptyKey_rejected_store_unchanged (x : String) (c : Cache)
    (s : ManagerState) :
    put c "" x = .error (.invalidArgument "Cache key cannot be empty") ∧
    get c "" = .error (.invalidArgument "Cache key cannot be empty") ∧
    step s (.putOp "" x) = s ∧
    step s (.getOp "") = s := by
  refine ⟨by simp [put], by simp [get], ?_, rfl⟩
  cases hi : s.inst with
  | none => simp [step, hi]
  | some c₀ => simp [step, hi, put]

/-- C4: for a non-empty key, put followed by get returns the value just
stored, whatever the prior contents of the store. -/
theorem put_get_roundtrip (c : Cache) (k v : String) (hk : k ≠ "") :
    put c k v = .ok (cacheInsert c k v) ∧
    get (cacheInsert c k v) k = .ok v := by
  constructor
  · simp [put, hk]
  · simp [get, hk, cacheFind_insert_self]

/-- C4 witness at a concrete store. -/
theorem put_get_roundtrip_witness :
    put [("a", "0")] "k" "v" = .ok (cacheInsert [("a", "0")] "k" "v") ∧
    get (cacheInsert [("a", "0")] "k" "v") "k" = .ok "v" :=
  put_get_roundtrip [("a", "0")] "k" "v" (by decide)

/-- C5: overwriting a key leaves get returning the second value, and the
overwrite leaves size unchanged relative to after the first put. -/
theorem put_overwrite (c : Cache) (k v₁ v₂ : String) (hk : k ≠ "") :
    put c k v₁ = .ok (cacheInsert c k v₁) ∧
    put (cacheInsert c k v₁) k v₂ =
      .ok (cacheInsert (cacheInsert c k v₁) k v₂) ∧
    get (cacheInsert (cacheInsert c k v₁) k v₂) k = .ok v₂ ∧
    size (cacheInsert (cacheInsert c k v₁) k v₂) = size (cacheInsert c k v₁) := by
  refine ⟨by simp [put, hk], by simp [put, hk], ?_, ?_⟩
  · simp [get, hk, cacheFind_insert_self]
  · simp [size, length_cacheInsert, cacheFind_insert_self]

/-- C5 witness at a concrete store. -/
theorem put_overwrite_witness :
    put [] "k" "v1" = .ok (cacheInsert [] "k" "v1") ∧
    put (cacheInsert [] "k" "v1") "k" "v2" =
      .ok (cacheInsert (cacheInsert [] "k" "v1") "k" "v2") ∧
    get (cacheInsert (cacheInsert [] "k" "v1") "k" "v2") "k" = .ok "v2" ∧
    size (cacheInsert (cacheInsert [] "k" "v1") "k" "v2") =
      size (cacheInsert [] "k" "v1") :=
  put_overwrite [] "k" "v1" "v2" (by decide)

/-- C6: after any sequence of puts starting from the empty store,
clearing yields size zero, and get on every previously stored key
returns the absent result (the empty string). -/
theorem clear_empties_store (l : List (String × String)) (k : String)
    (h : (cacheFind (runPuts [] l) k).isSome = true) :
    size (clear (runPuts [] l)) = 0 ∧
    get (clear (runPuts [] l)) k = .ok "" := by
  have hk : k ≠ "" := by
    refine runPuts_keys_nonempty l [] ?_ k h
    intro k₁ h₁
    simp [cacheFind] at h₁
  exact ⟨rfl, by simp [clear, get, hk, cacheFind]⟩

/-- C6 witness at a concrete put sequence. -/
theorem clear_empties_store_witness :
    size (clear (runPuts [] [("a", "1"), ("b", "2")])) = 0 ∧
    get (clear (runPuts [] [("a", "1"), ("b", "2")])) "a" = .ok "" :=
  clear_empties_store [("a", "1"), ("b", "2")] "a" (by decide)

/-- C7: put and get succeed exactly when the key is non-empty — in
particular they never fail on a non-empty key — the only error either
can produce is invalid_argument for the empty key, and clear, size and
snapshot are total functions of the store (they return a plain value for
every store, so they never fail). -/
theorem invalidArgument_only_failure (c : Cache) (k v : String) :
    ((put c k v).isOk = true ↔ k ≠ "") ∧
    ((get c k).isOk = true ↔ k ≠ "") ∧
    put c "" v = .error (.invalidArgument "Cache key cannot be empty") ∧
    get c "" = .error (.invalidArgument "Cache key cannot be empty") ∧
    clear c = [] ∧ size c = c.length ∧ snapshot c = c := by
  have hp₀ : put c "" v =
      .error (.invalidArgument "Cache key cannot be empty") := by simp [put]
  have hg₀ : get c "" =
      .error (.invalidArgument "Cache key cannot be empty") := by simp [get]
  refine ⟨?_, ?_, hp₀, hg₀, rfl, rfl, rfl⟩
  · by_cases hk : k = ""
    · subst hk
      rw [hp₀]
      simp [Except.isOk, Except.toBool]
    · have h₁ : put c k v = .ok (cacheInsert c k v) := by simp [put, hk]
      rw [h₁]
      simp [Except.isOk, Except.toBool, hk]
  · by_cases hk : k = ""
    · subst hk
      rw [hg₀]
      simp [Except.isOk, Except.toBool]
    · have h₁ : (get c k).isOk = true := by
        simp only [get, if_neg hk]
        cases cacheFind c k <;> rfl
      simp [h₁, hk]

/-- C8: the initialization gate is the Boolean once-flag, so it has
exactly two states; getInstance sets it (in particular the first call
from the initial state does), once set it stays set under every sequence
of operations, and no operation other than getInstance changes it. -/
theorem gate_never_reverts (s : ManagerState) (ops : List Op) (op : Op)
    (h : s.onceFlagDone = true) (hop : op ≠ Op.getInstanceOp) :
    (run s ops).onceFlagDone = true ∧
    (getInstance initialState).onceFlagDone = true ∧
    (step s op).onceFlagDone = s.onceFlagDone := by
  refine ⟨?_, rfl, ?_⟩
  · induction ops generalizing s with
    | nil => exact h
    | cons o rest ih =>
        simp only [run, List.foldl_cons] at *
        exact ih (step s o) (step_preserves_gate s o h)
  · cases op with
    | getInstanceOp => exact absurd rfl hop
    | putOp k v =>
        cases hi : s.inst with
        | none => simp [step, hi]
        | some c =>
            cases hp : put c k v with
            | ok c₁ => simp [step, hi, hp]
            | error e => simp [step, hi, hp]
    | getOp k => rfl
    | clearOp =>
        cases hi : s.inst with
        | none => simp [step, hi]
        | some c => simp [step, hi]
    | sizeOp => rfl

/-- C8 witness: a concrete initialized state and operation sequence. -/
theorem gate_never_reverts_witness :
    (run (getInstance initialState)
        [Op.putOp "a" "1", Op.clearOp, Op.getInstanceOp]).onceFlagDone = true ∧
    (getInstance initialState).onceFlagDone = true ∧
    (step (getInstance initialState) Op.clearOp).onceFlagDone =
      (getInstance initialState).onceFlagDone :=
  gate_never_reverts (getInstance initialState)
    [Op.putOp "a" "1", Op.clearOp, Op.getInstanceOp] Op.clearOp
    (by decide) (by decide)

/-- C9: put touches only the binding of its key: get on any other key is
unchanged, and size grows by one exactly when the key was absent. -/
theorem put_frame (c : Cache) (k v k₁ : String) (hk : k ≠ "") (hne : k₁ ≠ k) :
    put c k v = .ok (cacheInsert c k v) ∧
    get (cacheInsert c k v) k₁ = get c k₁ ∧
    size (cacheInsert c k v) =
      (if (cacheFind c k).isSome then size c else size c + 1) := by
  refine ⟨by simp [put, hk], ?_, ?_⟩
  · by_cases hk₁ : k₁ = ""
    · simp [get, hk₁]
    · simp [get, hk₁, cacheFind_insert_ne c k v k₁ hne]
  · simp [size, length_cacheInsert]

/-- C9 witness at a concrete store. -/
theorem put_frame_witness :
    put [("x", "1")] "k" "v" = .ok (cacheInsert [("x", "1")] "k" "v") ∧
    get (cacheInsert [("x", "1")] "k" "v") "x" = get [("x", "1")] "x" ∧
    size (cacheInsert [("x", "1")] "k" "v") =
      (if (cacheFind [("x", "1")] "k").isSome then size [("x", "1")]
        else size [("x", "1")] + 1) :=
  put_frame [("x", "1")] "k" "v" "x" (by decide) (by decide)

/-- C10: storing the empty string under a non-empty key makes get return
exactly the result it returns on any store from which the key is wholly
absent — the caller cannot tell the two apart. -/
theorem put_empty_value_indistinguishable (c d : Cache) (k : String)
    (hk : k ≠ "") (habs : cacheFind d k = none) :
    put c k "" = .ok (cacheInsert c k "") ∧
    get (cacheInsert c k "") k = .ok "" ∧
    get (cacheInsert c k "") k = get d k := by
  have h₁ : get (cacheInsert c k "") k = .ok "" := by
    simp [get, hk, cacheFind_insert_self]
  have h₂ : get d k = .ok "" := by simp [get, hk, habs]
  exact ⟨by simp [put, hk], h₁, h₁.trans h₂.symm⟩

/-- C10 witness at a concrete store and a concrete absent key. -/
theorem put_empty_value_indistinguishable_witness :
    put [("x", "1")] "k" "" = .ok (cacheInsert [("x", "1")] "k" "") ∧
    get (cacheInsert [("x", "1")] "k" "") "k" = .ok "" ∧
    get (cacheInsert [("x", "1")] "k" "") "k" = get [("y", "2")] "k" :=
  put_empty_value_indistinguishable [("x", "1")] [("y", "2")] "k"
    (by decide) (by decide)

end CacheManager
